import Mathlib

/-!
Shallow embedding of the quote-scraper pipeline (src/app/parse.py).

A fetched HTML page is modelled by the results of the fixed CSS selectors
the program applies to it: a listing page yields a list of quote blocks and
an optional next-page href; an author-bio page yields an optional title and
an optional description.  A quote block is modelled by the results of the
selectors `.text`, `.author`, `.tag` and the first hyperlink's href; a
missing element or attribute is `none`.  The network is a partial map from
URL strings to pages; a URL the map is undefined at is a request the HTTP
client cannot complete (the code performs no status check, so a response
with a non-success status is an ordinary page, not a failure).
Python exceptions are modelled by `Except ScrapeError`; an uncaught
exception aborting the run is an `Except.error` value propagating to the
top.  The insertion-ordered Python dict `authors` is an association list
with insert-if-absent at the tail.  Calls to `parse_author_bio` are
recorded in a log of (author name, fetched URL) pairs so that fetch-count
properties can be stated.  The CSV layer is modelled at row granularity: a
written file is a list of rows, each row a list of cell strings, with the
tags cell holding Python's `str` rendering of the tag list.
-/

/-- One quotation record, as built by `parse_single_quote`. -/
structure Quote where
  text : String
  author : String
  tags : List String
deriving DecidableEq, Repr

/-- One author record, as built by `parse_author_bio`. -/
structure Author where
  name : String
  bio : String
deriving DecidableEq, Repr

/-- Error taxonomy of the spec: fetch failure, missing markup element,
output write failure. -/
inductive ScrapeError where
  | networkError
  | malformedPage
  | ioError
deriving DecidableEq, Repr

/-- A fetched page, abstracted to the selector results the program reads:
quote blocks and the `li.next > a` href for listing pages, `.author-title`
and `.author-description` text for author-bio pages. -/
structure QuoteBlock where
  textElem : Option String
  authorElem : Option String
  tagElems : List String
  linkHref : Option String
deriving DecidableEq, Repr

structure Page where
  quoteBlocks : List QuoteBlock
  nextHref : Option String
  authorTitle : Option String
  authorDescription : Option String
deriving DecidableEq, Repr

/-- The network as the program observes it: a partial map from absolute
URLs to parsed response bodies.  `none` means the request cannot
complete, i.e. the HTTP client raises (DNS failure, connection refused,
timeout).  A non-success HTTP status is not a failure here: the code
reads `requests.get(...).content` with no `raise_for_status` and no
status check anywhere, so an error response arrives as its body like
any other page (see `siteOf` for the status-level refinement). -/
def Site : Type := String → Option Page

/-- An HTTP response at the transport level: a status code together
with the (parsed) body.  `requests.get` returns the response whatever
its status; only a transport failure raises. -/
structure HttpResponse where
  status : Nat
  body : Page
deriving DecidableEq, Repr

/-- The network at HTTP level: `none` models the client raising (DNS
failure, connection refused, timeout); any response, success status or
not, is delivered to the caller. -/
def Network : Type := String → Option HttpResponse

/-- What the pipeline observes of an HTTP-level network:
`requests.get(url).content` — the body of whatever response arrives,
with the status code discarded unread. -/
def siteOf (net : Network) : Site := fun u => (net u).map HttpResponse.body

def BASE_URL : String := "https://quotes.toscrape.com/"

/-- URL resolution as the code performs it: `BASE_URL + relative_href`
(plain string concatenation, `requests.get(BASE_URL + author_url)`). -/
def resolve (base rel : String) : String := base ++ rel

/-- Python's strip of leading and trailing whitespace, as applied by
`.strip()` and `get_text(strip=True)`.  Written as structural recursion
over the character list so that concrete instances reduce. -/
def strip (s : String) : String :=
  ⟨((s.data.dropWhile Char.isWhitespace).reverse.dropWhile Char.isWhitespace).reverse⟩

/-- The author registry: the insertion-ordered Python dict
`authors : Dict[str, Author]`. -/
abbrev Registry : Type := List (String × Author)

/-- Python `quote.author not in authors` (negated): key membership test. -/
def containsKey (r : Registry) (k : String) : Bool :=
  r.any (fun p => p.1 == k)

/-- `parse_single_quote`: `.text` and `.author` selector results verbatim,
`.tag` results stripped (`get_text(strip=True)`), in document order.  A
missing `.text` or `.author` element aborts (AttributeError on `None`,
i.e. the spec's MalformedPageError). -/
def parse_single_quote (qb : QuoteBlock) : Except ScrapeError Quote :=
  match qb.textElem, qb.authorElem with
  | some t, some a => .ok { text := t, author := a, tags := qb.tagElems.map strip }
  | _, _ => .error .malformedPage

/-- `parse_author_bio`: fetch `BASE_URL + author_url`, take the
`.author-title` and `.author-description` texts, both `.strip()`ed. -/
def parse_author_bio (site : Site) (author_url : String) : Except ScrapeError Author :=
  match site (resolve BASE_URL author_url) with
  | none => .error .networkError
  | some p =>
    match p.authorTitle, p.authorDescription with
    | some n, some b => .ok { name := strip n, bio := strip b }
    | _, _ => .error .malformedPage

/-- The loop body of `get_single_page_quotes` over the page's quote blocks.
For each block: parse the quote, read the first hyperlink's href (a missing
link aborts), and if the author name is not yet a registry key, fetch the
bio page and insert the Author under that name; the quote is appended
unconditionally.  Returns the quote list, the updated registry, and the
log of bio fetches performed, as (author name, fetched URL) pairs in call
order. -/
def walkBlocks (site : Site) :
    List QuoteBlock → Registry →
    Except ScrapeError (List Quote × Registry × List (String × String))
  | [], authors => .ok ([], authors, [])
  | qb :: rest, authors =>
    match parse_single_quote qb with
    | .error e => .error e
    | .ok q =>
      match qb.linkHref with
      | none => .error .malformedPage
      | some author_url =>
        if containsKey authors q.author then
          match walkBlocks site rest authors with
          | .error e => .error e
          | .ok (qs, a2, log) => .ok (q :: qs, a2, log)
        else
          match parse_author_bio site author_url with
          | .error e => .error e
          | .ok au =>
            match walkBlocks site rest (authors ++ [(q.author, au)]) with
            | .error e => .error e
            | .ok (qs, a2, log) =>
              .ok (q :: qs, a2, (q.author, resolve BASE_URL author_url) :: log)

/-- `get_single_page_quotes(page_soup, authors)`. -/
def get_single_page_quotes (site : Site) (page : Page) (authors : Registry) :
    Except ScrapeError (List Quote × Registry × List (String × String)) :=
  walkBlocks site page.quoteBlocks authors

/-- The `while next_button:` loop of `get_all_quotes_and_authors`, with
explicit fuel: the Python loop has no bound of its own, so `none` models a
run that has not terminated within `fuel` iterations. -/
def crawlLoop (site : Site) :
    Nat → Page → List Quote → Registry → List (String × String) →
    Option (Except ScrapeError (List Quote × Registry × List (String × String)))
  | fuel, soup, acc, authors, log =>
    match soup.nextHref with
    | none => some (.ok (acc, authors, log))
    | some href =>
      match fuel with
      | 0 => none
      | fuel' + 1 =>
        match site (resolve BASE_URL href) with
        | none => some (.error .networkError)
        | some soup2 =>
          match get_single_page_quotes site soup2 authors with
          | .error e => some (.error e)
          | .ok (qs, a2, log2) => crawlLoop site fuel' soup2 (acc ++ qs) a2 (log ++ log2)

/-- `get_all_quotes_and_authors()`: fetch the base URL, process the first
page with an empty registry, then follow next links until none remain. -/
def get_all_quotes_and_authors (site : Site) (fuel : Nat) :
    Option (Except ScrapeError (List Quote × Registry × List (String × String))) :=
  match site BASE_URL with
  | none => some (.error .networkError)
  | some soup =>
    match get_single_page_quotes site soup [] with
    | .error e => .some (.error e)
    | .ok (qs, authors, log) => crawlLoop site fuel soup qs authors log

/-! ## Serializer and entry point -/

def OUTPUT_QUOTES_PATH : String := "quotes.csv"

def OUTPUT_AUTHORS_PATH : String := "authors.csv"

/-- The apostrophe character, used by Python's repr of a string. -/
def singleQuote : String := (Char.ofNat 39).toString

/-- Python's `repr` of a plain string (no embedded quotes or escapes):
the string wrapped in single quotes.  `csv.writer` applies `str` to the
non-string value `quote.tags`, and `str` of a list renders each element
with `repr`. -/
def pyStrRepr (s : String) : String := singleQuote ++ s ++ singleQuote

/-- Python's `str` of a list of strings, the literal written into the
tags cell: `[` + comma-space-joined reprs + `]`. -/
def pyListRepr (xs : List String) : String :=
  "[" ++ String.intercalate ", " (xs.map pyStrRepr) ++ "]"

/-- The row `csv.writer` receives for one quote:
`[quote.text, quote.author, quote.tags]`, the list rendered by `str`. -/
def quoteRow (q : Quote) : List String := [q.text, q.author, pyListRepr q.tags]

/-- Full row contents of the quotes file: header then one row per quote. -/
def quotesRows (qs : List Quote) : List (List String) :=
  ["text", "author", "tags"] :: qs.map quoteRow

/-- The row written for one author: `[author.name, author.bio]`. -/
def authorRow (a : Author) : List String := [a.name, a.bio]

/-- Full row contents of the authors file: header then one row per
registry entry, in registry (insertion) order: the code iterates
`authors.values()` and a Python dict preserves insertion order. -/
def authorsRows (r : Registry) : List (List String) :=
  ["name", "bio"] :: r.map (fun p => authorRow p.2)

/-- The ambient world of a run: the network plus a filesystem at row
granularity.  `writable` says whether opening a path in mode `w`
succeeds; an unwritable path models the spec's write-failure case. -/
structure World where
  site : Site
  writable : String → Bool
  fs : String → Option (List (List String))

/-- Opening path in write mode + `csv.writer` writing `rows`: replaces
whatever was at `path` before, or fails with the spec's write error. -/
def writeFile (w : World) (path : String) (rows : List (List String)) :
    Except ScrapeError World :=
  if w.writable path then
    .ok { w with fs := fun p => if p == path then some rows else w.fs p }
  else .error .ioError

/-- `save_quotes_to_csv(quotes, output_csv_path)`. -/
def save_quotes_to_csv (qs : List Quote) (path : String) (w : World) :
    Except ScrapeError World :=
  writeFile w path (quotesRows qs)

/-- `save_authors_to_csv(authors, output_csv_path)`. -/
def save_authors_to_csv (r : Registry) (path : String) (w : World) :
    Except ScrapeError World :=
  writeFile w path (authorsRows r)

/-- `main(output_quotes_csv_path)`: crawl, then write quotes, then write
authors (to the constant path).  No error is caught: the first
`Except.error` short-circuits, and the world it is paired with shows
which files had been written when the run aborted.  `none` is a crawl
that exhausted its fuel. -/
def App.main (fuel : Nat) (output_quotes_csv_path : String) (w : World) :
    Option (Except ScrapeError Unit × World) :=
  match get_all_quotes_and_authors w.site fuel with
  | none => none
  | some (.error e) => some (.error e, w)
  | some (.ok (quotes, authors, _log)) =>
    match save_quotes_to_csv quotes output_quotes_csv_path w with
    | .error e => some (.error e, w)
    | .ok w1 =>
      match save_authors_to_csv authors OUTPUT_AUTHORS_PATH w1 with
      | .error e => some (.error e, w1)
      | .ok w2 => some (.ok (), w2)

/-! ## A small concrete two-page site, used by the witnesses -/

def qbA : QuoteBlock :=
  { textElem := some "q1", authorElem := some "A", tagElems := [" t1 "],
    linkHref := some "author/A" }

def qbB1 : QuoteBlock :=
  { textElem := some "q2", authorElem := some "B", tagElems := [],
    linkHref := some "author/B" }

def qbB2 : QuoteBlock :=
  { textElem := some "q3", authorElem := some "B", tagElems := ["x"],
    linkHref := some "author/B" }

def qbC : QuoteBlock :=
  { textElem := some "q4", authorElem := some "C", tagElems := [],
    linkHref := some "author/C" }

def listPage1 : Page :=
  { quoteBlocks := [qbA, qbB1], nextHref := some "page/2/",
    authorTitle := none, authorDescription := none }

def listPage2 : Page :=
  { quoteBlocks := [qbB2, qbC], nextHref := none,
    authorTitle := none, authorDescription := none }

def bioPage (n b : String) : Page :=
  { quoteBlocks := [], nextHref := none,
    authorTitle := some n, authorDescription := some b }

/-- Listing page 1 has quotes by A and B, page 2 by B and C; each author
has a bio page.  All other URLs fail to fetch. -/
def demoSite : Site := fun u =>
  if u = BASE_URL then some listPage1
  else if u = resolve BASE_URL "page/2/" then some listPage2
  else if u = resolve BASE_URL "author/A" then some (bioPage "Alice" "bio A")
  else if u = resolve BASE_URL "author/B" then some (bioPage "Bob" "bio B")
  else if u = resolve BASE_URL "author/C" then some (bioPage "Cara" "bio C")
  else none

/-- The quote list the crawl of `demoSite` produces. -/
def demoQuotes : List Quote :=
  [⟨"q1", "A", ["t1"]⟩, ⟨"q2", "B", []⟩, ⟨"q3", "B", ["x"]⟩, ⟨"q4", "C", []⟩]

/-- The registry the crawl of `demoSite` produces: exactly A, B, C, in
first-encounter order. -/
def demoRegistry : Registry :=
  [("A", ⟨"Alice", "bio A"⟩), ("B", ⟨"Bob", "bio B"⟩), ("C", ⟨"Cara", "bio C"⟩)]

/-- The bio-fetch log of the crawl of `demoSite`: each author fetched
once, although B appears on both pages. -/
def demoLog : List (String × String) :=
  [("A", resolve BASE_URL "author/A"), ("B", resolve BASE_URL "author/B"),
   ("C", resolve BASE_URL "author/C")]

/-- A world over `demoSite` with an empty, fully writable filesystem. -/
def demoWorld : World :=
  { site := demoSite, writable := fun _ => true, fs := fun _ => none }

deriving instance DecidableEq for Except

set_option synthInstance.maxSize 512

/-! ## Derived notions used to state the properties -/

/-- The key sequence of the registry, in insertion order. -/
def keys (r : Registry) : List String := r.map Prod.fst

/-- One deduplication step: append a name unless it is already present.
Folding this over a name sequence yields the dict's key order. -/
def stepName (acc : List String) (n : String) : List String :=
  if acc.any (fun m => m == n) then acc else acc ++ [n]

/-- The distinct names of a sequence, in order of first occurrence. -/
def firstOccurrences (names : List String) : List String :=
  names.foldl stepName []

/-- A quote block whose processing succeeds against `site`: text and
author elements present, a hyperlink present, and the linked bio page
fetchable and well formed. -/
def blockOk (site : Site) (qb : QuoteBlock) : Bool :=
  qb.textElem.isSome && qb.authorElem.isSome &&
    (match qb.linkHref with
     | none => false
     | some h =>
       match parse_author_bio site h with
       | .ok _ => true
       | .error _ => false)

/-- A listing page all of whose quote blocks process successfully. -/
def pageOk (site : Site) (p : Page) : Bool := p.quoteBlocks.all (blockOk site)

/-- The per-block quote list of a sequence of quote blocks. -/
def quotesOf (bs : List QuoteBlock) : List Quote :=
  bs.filterMap (fun qb => (parse_single_quote qb).toOption)

/-- The per-page quote list. -/
def pageQuotes (p : Page) : List Quote := quotesOf p.quoteBlocks

/-- `isChain site p pages` says the pagination from `p` onward is the
finite chain `pages`: each page's next link, concatenated onto the base
URL, fetches the following page, and the last page has no next link. -/
def isChain (site : Site) : Page → List Page → Bool
  | p, [] => decide (p.nextHref = none)
  | p, p2 :: rest =>
    match p.nextHref with
    | none => false
    | some h =>
      if site (resolve BASE_URL h) = some p2 then isChain site p2 rest else false

/-! ## Further concrete inputs used by the witnesses -/

/-- A network on which every request raises (cannot complete). -/
def emptySite : Site := fun _ => none

/-- A quote block with no text element. -/
def badQuoteBlock : QuoteBlock :=
  { textElem := none, authorElem := some "A", tagElems := [], linkHref := some "author/A" }

/-- A quote block with no hyperlink. -/
def noLinkBlock : QuoteBlock :=
  { textElem := some "x", authorElem := some "A", tagElems := [], linkHref := none }

/-- An author-bio page with a title but no description element. -/
def badAuthorPage : Page :=
  { quoteBlocks := [], nextHref := none, authorTitle := some "T",
    authorDescription := none }

/-- A site serving only the malformed author page. -/
def badAuthorSite : Site := fun u =>
  if u = resolve BASE_URL "author/X" then some badAuthorPage else none

/-- A site serving only A's bio page; it agrees with `demoSite` at that
URL and nowhere else. -/
def authorOnlySite : Site := fun u =>
  if u = resolve BASE_URL "author/A" then some (bioPage "Alice" "bio A") else none

/-- A world over the failing network. -/
def emptyWorld : World :=
  { site := emptySite, writable := fun _ => true, fs := fun _ => none }

/-- A world over `demoSite` where every path but the authors file is
writable, so the authors-file write fails after the quotes file is
written. -/
def demoWorldNoAuthors : World :=
  { site := demoSite, writable := fun p => !(p == OUTPUT_AUTHORS_PATH),
    fs := fun _ => none }

/-- A quote block whose displayed author name has trailing whitespace
and differs from the bio page's title. -/
def oddNameBlock : QuoteBlock :=
  { textElem := some "qq", authorElem := some "B. Smith ", tagElems := [],
    linkHref := some "author/B-Smith" }

/-- A site whose single author page's title strips to a name different
from the listing's displayed name. -/
def oddNameSite : Site := fun u =>
  if u = resolve BASE_URL "author/B-Smith" then some (bioPage " Bob Smith " "b")
  else none

/-- An HTTP-level network on which every request raises. -/
def emptyNet : Network := fun _ => none

/-- An HTTP-level network serving A's bio page with status 404 (and
raising everywhere else): the body is well formed, only the status is
non-success. -/
def notFoundNet : Network := fun u =>
  if u = resolve BASE_URL "author/A" then
    some { status := 404, body := bioPage "Alice" "bio A" }
  else none

/-! ## Helper lemmas -/

theorem parse_single_quote_ok {qb : QuoteBlock} {t a : String}
    (h1 : qb.textElem = some t) (h2 : qb.authorElem = some a) :
    parse_single_quote qb = .ok { text := t, author := a, tags := qb.tagElems.map strip } := by
  unfold parse_single_quote
  rw [h1, h2]

theorem parse_single_quote_error {qb : QuoteBlock} {e : ScrapeError}
    (h : parse_single_quote qb = .error e) : e = .malformedPage := by
  unfold parse_single_quote at h
  rcases ht : qb.textElem with _ | t <;> rcases ha : qb.authorElem with _ | a <;>
    rw [ht, ha] at h <;> simp_all

theorem containsKey_eq_any (r : Registry) (k : String) :
    containsKey r k = (keys r).any (fun m => m == k) := by
  induction r with
  | nil => rfl
  | cons p r ih => simp [containsKey, keys] at ih ⊢; rw [ih]

theorem not_mem_of_containsKey_false {r : Registry} {k : String}
    (h : containsKey r k = false) : k ∉ keys r := by
  rw [containsKey_eq_any] at h
  simp only [List.any_eq_false] at h
  intro hk
  exact absurd (by simp : (k == k) = true) (by simpa using h k hk)

theorem keys_append_single (r : Registry) (k : String) (a : Author) :
    keys (r ++ [(k, a)]) = keys r ++ [k] := by
  simp [keys]

theorem stepName_of_contains {r : Registry} {n : String}
    (h : containsKey r n = true) : stepName (keys r) n = keys r := by
  rw [containsKey_eq_any] at h
  simp [stepName, h]

theorem stepName_of_not_contains {r : Registry} {n : String}
    (h : containsKey r n = false) : stepName (keys r) n = keys r ++ [n] := by
  rw [containsKey_eq_any] at h
  simp [stepName, h]

theorem walkBlocks_spec (site : Site) (bs : List QuoteBlock) :
    ∀ (reg : Registry) (qs : List Quote) (reg' : Registry) (log : List (String × String)),
    walkBlocks site bs reg = .ok (qs, reg', log) →
    keys reg' = (qs.map Quote.author).foldl stepName (keys reg) ∧
    keys reg' = keys reg ++ log.map Prod.fst ∧
    qs.length = bs.length ∧
    ((keys reg).Nodup → (keys reg').Nodup) := by
  induction bs with
  | nil =>
    intro reg qs reg' log h
    simp only [walkBlocks] at h
    obtain ⟨rfl, rfl, rfl⟩ := by simpa using h.symm
    simp
  | cons qb rest ih =>
    intro reg qs reg' log h
    simp only [walkBlocks] at h
    cases hp : parse_single_quote qb with
    | error e => rw [hp] at h; exact absurd h (by simp)
    | ok q =>
      rw [hp] at h
      dsimp only at h
      cases hl : qb.linkHref with
      | none => rw [hl] at h; exact absurd h (by simp)
      | some author_url =>
        rw [hl] at h
        dsimp only at h
        by_cases hc : containsKey reg q.author
        · rw [if_pos hc] at h
          cases hw : walkBlocks site rest reg with
          | error e => rw [hw] at h; exact absurd h (by simp)
          | ok res =>
            obtain ⟨qs0, a2, log0⟩ := res
            rw [hw] at h
            dsimp only at h
            obtain ⟨rfl, rfl, rfl⟩ : q :: qs0 = qs ∧ a2 = reg' ∧ log0 = log := by
              simpa using h
            obtain ⟨ih1, ih2, ih3, ih4⟩ := ih reg qs0 a2 log0 hw
            refine ⟨?_, ih2, by simp [ih3], ih4⟩
            rw [ih1]
            simp [stepName_of_contains hc]
        · rw [if_neg hc] at h
          cases hb : parse_author_bio site author_url with
          | error e => rw [hb] at h; exact absurd h (by simp)
          | ok au =>
            rw [hb] at h
            dsimp only at h
            cases hw : walkBlocks site rest (reg ++ [(q.author, au)]) with
            | error e => rw [hw] at h; exact absurd h (by simp)
            | ok res =>
              obtain ⟨qs0, a2, log0⟩ := res
              rw [hw] at h
              dsimp only at h
              obtain ⟨rfl, rfl, rfl⟩ :
                  q :: qs0 = qs ∧ a2 = reg' ∧ (q.author, resolve BASE_URL author_url) :: log0 = log := by
                simpa using h
              obtain ⟨ih1, ih2, ih3, ih4⟩ := ih (reg ++ [(q.author, au)]) qs0 a2 log0 hw
              have hk : keys (reg ++ [(q.author, au)]) = keys reg ++ [q.author] :=
                keys_append_single reg q.author au
              rw [hk] at ih1 ih2 ih4
              have hcf : containsKey reg q.author = false := by
                simpa using hc
              refine ⟨?_, ?_, by simp [ih3], ?_⟩
              · rw [ih1]
                simp [stepName_of_not_contains hcf]
              · rw [ih2]
                simp
              · intro hnd
                apply ih4
                rw [List.nodup_append]
                refine ⟨hnd, by simp, ?_⟩
                intro x hx
                simp only [List.mem_singleton]
                intro hxe
                subst hxe
                exact not_mem_of_containsKey_false hcf hx

theorem quotesOf_cons_ok {qb : QuoteBlock} {q : Quote} (rest : List QuoteBlock)
    (h : parse_single_quote qb = .ok q) :
    quotesOf (qb :: rest) = q :: quotesOf rest := by
  simp [quotesOf, h, Except.toOption]

theorem walkBlocks_ok (site : Site) (bs : List QuoteBlock) :
    ∀ reg : Registry, bs.all (blockOk site) = true →
    ∃ reg' log, walkBlocks site bs reg = .ok (quotesOf bs, reg', log) := by
  induction bs with
  | nil =>
    intro reg _
    exact ⟨reg, [], by simp [walkBlocks, quotesOf]⟩
  | cons qb rest ih =>
    intro reg hok
    simp only [List.all_cons, Bool.and_eq_true] at hok
    obtain ⟨hqb, hrest⟩ := hok
    unfold blockOk at hqb
    cases hl : qb.linkHref with
    | none => rw [hl] at hqb; simp at hqb
    | some author_url =>
      rw [hl] at hqb
      dsimp only at hqb
      cases hb : parse_author_bio site author_url with
      | error e => rw [hb] at hqb; simp at hqb
      | ok au =>
        rw [hb] at hqb
        dsimp only at hqb
        simp only [Bool.and_eq_true, Option.isSome_iff_exists] at hqb
        obtain ⟨⟨⟨t, ht⟩, ⟨a, ha⟩⟩, -⟩ := hqb
        have hp : parse_single_quote qb =
            .ok { text := t, author := a, tags := qb.tagElems.map strip } :=
          parse_single_quote_ok ht ha
        have hq := quotesOf_cons_ok rest hp
        by_cases hc : containsKey reg a = true
        · obtain ⟨reg2, log2, hw⟩ := ih reg hrest
          refine ⟨reg2, log2, ?_⟩
          rw [hq]
          simp only [walkBlocks, hp, hl]
          rw [if_pos hc, hw]
        · obtain ⟨reg2, log2, hw⟩ := ih (reg ++ [(a, au)]) hrest
          refine ⟨reg2, (a, resolve BASE_URL author_url) :: log2, ?_⟩
          rw [hq]
          simp only [walkBlocks, hp, hl]
          rw [if_neg hc, hb]
          dsimp only
          rw [hw]

theorem walkBlocks_log_src (site : Site) (bs : List QuoteBlock) :
    ∀ (reg : Registry) (qs : List Quote) (reg' : Registry) (log : List (String × String)),
    walkBlocks site bs reg = .ok (qs, reg', log) →
    ∀ e ∈ log, ∃ qb, qb ∈ bs ∧ ∃ hh, qb.linkHref = some hh ∧ e.2 = resolve BASE_URL hh := by
  induction bs with
  | nil =>
    intro reg qs reg' log h
    simp only [walkBlocks] at h
    obtain ⟨rfl, rfl, rfl⟩ : ([] : List Quote) = qs ∧ reg = reg' ∧
        ([] : List (String × String)) = log := by simpa using h
    intro e he
    simp at he
  | cons qb rest ih =>
    intro reg qs reg' log h
    simp only [walkBlocks] at h
    cases hp : parse_single_quote qb with
    | error e => rw [hp] at h; exact absurd h (by simp)
    | ok q =>
      rw [hp] at h
      dsimp only at h
      cases hl : qb.linkHref with
      | none => rw [hl] at h; exact absurd h (by simp)
      | some author_url =>
        rw [hl] at h
        dsimp only at h
        by_cases hc : containsKey reg q.author = true
        · rw [if_pos hc] at h
          cases hw : walkBlocks site rest reg with
          | error e => rw [hw] at h; exact absurd h (by simp)
          | ok res =>
            obtain ⟨qs0, a2, log0⟩ := res
            rw [hw] at h
            dsimp only at h
            obtain ⟨rfl, rfl, rfl⟩ : q :: qs0 = qs ∧ a2 = reg' ∧ log0 = log := by
              simpa using h
            intro e he
            obtain ⟨qb', hqb', hrest⟩ := ih reg qs0 a2 log0 hw e he
            exact ⟨qb', List.mem_cons_of_mem qb hqb', hrest⟩
        · rw [if_neg hc] at h
          cases hb : parse_author_bio site author_url with
          | error e => rw [hb] at h; exact absurd h (by simp)
          | ok au =>
            rw [hb] at h
            dsimp only at h
            cases hw : walkBlocks site rest (reg ++ [(q.author, au)]) with
            | error e => rw [hw] at h; exact absurd h (by simp)
            | ok res =>
              obtain ⟨qs0, a2, log0⟩ := res
              rw [hw] at h
              dsimp only at h
              obtain ⟨rfl, rfl, rfl⟩ :
                  q :: qs0 = qs ∧ a2 = reg' ∧
                  (q.author, resolve BASE_URL author_url) :: log0 = log := by
                simpa using h
              intro e he
              rcases List.mem_cons.mp he with he | he
              · exact ⟨qb, List.mem_cons_self qb rest,
                  author_url, hl, by rw [he]⟩
              · obtain ⟨qb', hqb', hrest⟩ := ih (reg ++ [(q.author, au)]) qs0 a2 log0 hw e he
                exact ⟨qb', List.mem_cons_of_mem qb hqb', hrest⟩

theorem crawlLoop_spec (site : Site) (fuel : Nat) :
    ∀ (soup : Page) (acc : List Quote) (reg : Registry) (log : List (String × String))
      (qs : List Quote) (reg' : Registry) (log' : List (String × String)),
    crawlLoop site fuel soup acc reg log = some (.ok (qs, reg', log')) →
    (∀ k0, keys reg = (acc.map Quote.author).foldl stepName k0 →
       keys reg' = (qs.map Quote.author).foldl stepName k0) ∧
    (∀ k0, keys reg = k0 ++ log.map Prod.fst →
       keys reg' = k0 ++ log'.map Prod.fst) ∧
    ((keys reg).Nodup → (keys reg').Nodup) := by
  induction fuel with
  | zero =>
    intro soup acc reg log qs reg' log' h
    rw [crawlLoop] at h
    cases hn : soup.nextHref with
    | none =>
      rw [hn] at h
      obtain ⟨rfl, rfl, rfl⟩ : acc = qs ∧ reg = reg' ∧ log = log' := by simpa using h
      exact ⟨fun k0 hk => hk, fun k0 hk => hk, fun hnd => hnd⟩
    | some href => rw [hn] at h; simp at h
  | succ fuel ih =>
    intro soup acc reg log qs reg' log' h
    rw [crawlLoop] at h
    cases hn : soup.nextHref with
    | none =>
      rw [hn] at h
      obtain ⟨rfl, rfl, rfl⟩ : acc = qs ∧ reg = reg' ∧ log = log' := by simpa using h
      exact ⟨fun k0 hk => hk, fun k0 hk => hk, fun hnd => hnd⟩
    | some href =>
      rw [hn] at h
      dsimp only at h
      cases hs : site (resolve BASE_URL href) with
      | none => rw [hs] at h; exact absurd h (by simp)
      | some soup2 =>
        rw [hs] at h
        dsimp only at h
        cases hw : get_single_page_quotes site soup2 reg with
        | error e => rw [hw] at h; exact absurd h (by simp)
        | ok res =>
          obtain ⟨qs2, a2, log2⟩ := res
          rw [hw] at h
          dsimp only at h
          obtain ⟨w1, w2, w3, w4⟩ :=
            walkBlocks_spec site soup2.quoteBlocks reg qs2 a2 log2 hw
          obtain ⟨ih1, ih2, ih3⟩ := ih soup2 (acc ++ qs2) a2 (log ++ log2) qs reg' log' h
          refine ⟨?_, ?_, fun hnd => ih3 (w4 hnd)⟩
          · intro k0 hk
            apply ih1
            rw [w1, hk]
            simp [List.foldl_append]
          · intro k0 hk
            apply ih2
            rw [w2, hk]
            simp

theorem crawlLoop_chain (site : Site) (pages : List Page) :
    ∀ (p : Page) (fuel : Nat) (acc : List Quote) (reg : Registry)
      (log : List (String × String)),
    isChain site p pages = true →
    pages.all (pageOk site) = true →
    pages.length ≤ fuel →
    ∃ reg' log', crawlLoop site fuel p acc reg log =
      some (.ok (acc ++ (pages.map pageQuotes).flatten, reg', log')) := by
  induction pages with
  | nil =>
    intro p fuel acc reg log hc _ _
    have hn : p.nextHref = none := by simpa [isChain] using hc
    refine ⟨reg, log, ?_⟩
    rw [crawlLoop, hn]
    simp
  | cons p2 rest ih =>
    intro p fuel acc reg log hc hok hf
    unfold isChain at hc
    cases hn : p.nextHref with
    | none => rw [hn] at hc; simp at hc
    | some href =>
      rw [hn] at hc
      dsimp only at hc
      by_cases hs : site (resolve BASE_URL href) = some p2
      case neg => rw [if_neg hs] at hc; simp at hc
      case pos =>
        rw [if_pos hs] at hc
        simp only [List.all_cons, Bool.and_eq_true] at hok
        obtain ⟨hok2, hokr⟩ := hok
        cases fuel with
        | zero => simp at hf
        | succ fuel =>
          have hlen : rest.length ≤ fuel := by
            simpa using hf
          obtain ⟨reg2, log2, hw⟩ := walkBlocks_ok site p2.quoteBlocks reg hok2
          obtain ⟨reg', log', hloop⟩ :=
            ih p2 fuel (acc ++ pageQuotes p2) reg2 (log ++ log2) hc hokr hlen
          refine ⟨reg', log', ?_⟩
          rw [crawlLoop, hn]
          dsimp only
          rw [hs]
          dsimp only
          have hw2 : get_single_page_quotes site p2 reg =
              .ok (pageQuotes p2, reg2, log2) := hw
          rw [hw2]
          dsimp only
          rw [hloop]
          simp

/-! ## Claim theorems -/

/-- C2: for a crawl over a site whose pagination is a finite chain, the
crawl loop terminates (returns a value rather than running out of any
amount of fuel at least the chain length) exactly after processing the
first page with no next link, and the accumulated quote sequence is the
concatenation of the per-page quote lists in page order. -/
theorem crawl_chain_terminates (site : Site) (p0 : Page) (pages : List Page) (fuel : Nat)
    (h0 : site BASE_URL = some p0)
    (hchain : isChain site p0 pages = true)
    (hok : (p0 :: pages).all (pageOk site) = true)
    (hfuel : pages.length ≤ fuel) :
    ∃ reg log, get_all_quotes_and_authors site fuel =
      some (.ok (((p0 :: pages).map pageQuotes).flatten, reg, log)) := by
  simp only [List.all_cons, Bool.and_eq_true] at hok
  obtain ⟨hok0, hokr⟩ := hok
  obtain ⟨reg1, log1, hw⟩ := walkBlocks_ok site p0.quoteBlocks [] hok0
  obtain ⟨reg', log', hloop⟩ :=
    crawlLoop_chain site pages p0 fuel (pageQuotes p0) reg1 log1 hchain hokr hfuel
  refine ⟨reg', log', ?_⟩
  unfold get_all_quotes_and_authors
  rw [h0]
  dsimp only
  have hw2 : get_single_page_quotes site p0 [] = .ok (pageQuotes p0, reg1, log1) := hw
  rw [hw2]
  dsimp only
  rw [hloop]
  simp

/-- C2 witness: the two-page demo chain crawls to completion with the
concatenation of the two page quote lists. -/
theorem crawl_chain_terminates_witness :
    (demoSite BASE_URL = some listPage1 ∧
     isChain demoSite listPage1 [listPage2] = true ∧
     (listPage1 :: [listPage2]).all (pageOk demoSite) = true ∧
     [listPage2].length ≤ 5) ∧
    ∃ reg log, get_all_quotes_and_authors demoSite 5 =
      some (.ok (((listPage1 :: [listPage2]).map pageQuotes).flatten, reg, log)) :=
  ⟨⟨by decide, by decide, by decide, by decide⟩,
   crawl_chain_terminates demoSite listPage1 [listPage2] 5
     (by decide) (by decide) (by decide) (by decide)⟩

/-- C1: over any completed crawl, the bio-fetch log records exactly the
registry's keys, each once: an author's bio page is fetched, and the
Author inserted, at most once per unique name no matter how many quotes
reference the name. -/
theorem author_fetched_once (site : Site) (fuel : Nat) (qs : List Quote)
    (reg : Registry) (log : List (String × String))
    (h : get_all_quotes_and_authors site fuel = some (.ok (qs, reg, log))) :
    log.map Prod.fst = keys reg ∧ (log.map Prod.fst).Nodup := by
  unfold get_all_quotes_and_authors at h
  cases h0 : site BASE_URL with
  | none => rw [h0] at h; simp at h
  | some soup =>
    rw [h0] at h
    dsimp only at h
    cases hw : get_single_page_quotes site soup [] with
    | error e => rw [hw] at h; simp at h
    | ok res =>
      obtain ⟨qs1, reg1, log1⟩ := res
      rw [hw] at h
      dsimp only at h
      obtain ⟨w1, w2, w3, w4⟩ := walkBlocks_spec site soup.quoteBlocks [] qs1 reg1 log1 hw
      obtain ⟨c1, c2, c3⟩ := crawlLoop_spec site fuel soup qs1 reg1 log1 qs reg log h
      have hkeys1 : keys reg1 = [] ++ log1.map Prod.fst := by simpa [keys] using w2
      have hkeys : keys reg = log.map Prod.fst := by simpa using c2 [] hkeys1
      have hnd : (keys reg).Nodup := c3 (w4 (by simp [keys]))
      rw [← hkeys]
      exact ⟨rfl, hnd⟩

/-- C1 witness: on the two-page demo site (authors A, B on page 1 and
B, C on page 2) the registry is exactly A, B, C and B's bio page is
fetched only once. -/
theorem author_fetched_once_witness :
    get_all_quotes_and_authors demoSite 5 =
      some (.ok (demoQuotes, demoRegistry, demoLog)) ∧
    (demoLog.map Prod.fst = keys demoRegistry ∧ (demoLog.map Prod.fst).Nodup) :=
  ⟨by decide, author_fetched_once demoSite 5 demoQuotes demoRegistry demoLog (by decide)⟩

/-- C10: over any completed crawl, the registry's key order is the order
of first occurrence of each author name in the crawled quote sequence,
and serializing the registry writes its rows in exactly that order. -/
theorem authors_file_insertion_order (site : Site) (fuel : Nat) (qs : List Quote)
    (reg : Registry) (log : List (String × String))
    (h : get_all_quotes_and_authors site fuel = some (.ok (qs, reg, log))) :
    keys reg = firstOccurrences (qs.map Quote.author) ∧
    ∀ (path : String) (w : World), w.writable path = true →
      ∃ w', save_authors_to_csv reg path w = .ok w' ∧
        w'.fs path = some (["name", "bio"] :: reg.map (fun p => [p.2.name, p.2.bio])) := by
  constructor
  · unfold get_all_quotes_and_authors at h
    cases h0 : site BASE_URL with
    | none => rw [h0] at h; simp at h
    | some soup =>
      rw [h0] at h
      dsimp only at h
      cases hw : get_single_page_quotes site soup [] with
      | error e => rw [hw] at h; simp at h
      | ok res =>
        obtain ⟨qs1, reg1, log1⟩ := res
        rw [hw] at h
        dsimp only at h
        obtain ⟨w1, w2, w3, w4⟩ := walkBlocks_spec site soup.quoteBlocks [] qs1 reg1 log1 hw
        obtain ⟨c1, c2, c3⟩ := crawlLoop_spec site fuel soup qs1 reg1 log1 qs reg log h
        have hkeys1 : keys reg1 = (qs1.map Quote.author).foldl stepName [] := by
          simpa [keys] using w1
        exact c1 [] hkeys1
  · intro path w hwr
    refine ⟨{ w with fs := fun p => if p == path then some (authorsRows reg) else w.fs p }, ?_, ?_⟩
    · simp [save_authors_to_csv, writeFile, hwr]
    · simp [authorsRows, authorRow]

/-- C10 witness: on the demo site the registry keys are A, B, C, the
first-occurrence order of the crawled authors. -/
theorem authors_file_insertion_order_witness :
    get_all_quotes_and_authors demoSite 5 =
      some (.ok (demoQuotes, demoRegistry, demoLog)) ∧
    keys demoRegistry = firstOccurrences (demoQuotes.map Quote.author) :=
  ⟨by decide,
   (authors_file_insertion_order demoSite 5 demoQuotes demoRegistry demoLog (by decide)).1⟩

/-- C3 counterexample: the claim's non-success-status clause is false of
this code.  A network serving A's bio page with status 404 — the request
completes, only the status is non-success — produces no NetworkError at
all: the body is parsed and the Author returned, because the code reads
`.content` without any status check. -/
theorem network_error_status_counterexample :
    notFoundNet (resolve BASE_URL "author/A") =
      some { status := 404, body := bioPage "Alice" "bio A" } ∧
    parse_author_bio (siteOf notFoundNet) "author/A" =
      .ok { name := "Alice", bio := "bio A" } := by
  constructor
  · decide
  · decide

/-- C3 (amended): only a request the HTTP client cannot complete (DNS
failure, connection refused, timeout — the client raising) produces a
NetworkError, propagated immediately to the caller with no retry, for
the author-bio fetch, the base-page fetch and the next-page fetch alike;
a response with a non-success HTTP status is not detected: its body is
processed exactly like any other page, the status discarded unread. -/
theorem network_error_transport_only (net : Network) (url : String) (fuel : Nat)
    (p : Page) (acc : List Quote) (reg : Registry) (log : List (String × String)) :
    (net (resolve BASE_URL url) = none →
       parse_author_bio (siteOf net) url = .error .networkError) ∧
    (net BASE_URL = none →
       get_all_quotes_and_authors (siteOf net) fuel = some (.error .networkError)) ∧
    (∀ href, p.nextHref = some href → net (resolve BASE_URL href) = none →
       crawlLoop (siteOf net) (fuel + 1) p acc reg log = some (.error .networkError)) ∧
    (∀ r, net (resolve BASE_URL url) = some r →
       parse_author_bio (siteOf net) url =
         match r.body.authorTitle, r.body.authorDescription with
         | some n, some b => .ok { name := strip n, bio := strip b }
         | _, _ => .error .malformedPage) := by
  refine ⟨?_, ?_, ?_, ?_⟩
  · intro h
    unfold parse_author_bio
    simp [siteOf, h]
  · intro h
    unfold get_all_quotes_and_authors
    simp [siteOf, h]
  · intro href hn hs
    rw [crawlLoop, hn]
    dsimp only
    have hs2 : siteOf net (resolve BASE_URL href) = none := by simp [siteOf, hs]
    rw [hs2]
  · intro r h
    unfold parse_author_bio
    have h2 : siteOf net (resolve BASE_URL url) = some r.body := by simp [siteOf, h]
    rw [h2]

/-- C3 witness: on the raising network the author fetch, the base fetch
and the next-page fetch each abort with a NetworkError; on the network
serving a 404, the body is parsed with the status ignored. -/
theorem network_error_transport_only_witness :
    (emptyNet (resolve BASE_URL "author/A") = none ∧
     parse_author_bio (siteOf emptyNet) "author/A" = .error .networkError) ∧
    (emptyNet BASE_URL = none ∧
     get_all_quotes_and_authors (siteOf emptyNet) 3 = some (.error .networkError)) ∧
    (listPage1.nextHref = some "page/2/" ∧
     emptyNet (resolve BASE_URL "page/2/") = none ∧
     crawlLoop (siteOf emptyNet) 3 listPage1 [] [] [] = some (.error .networkError)) ∧
    (notFoundNet (resolve BASE_URL "author/A") =
       some { status := 404, body := bioPage "Alice" "bio A" } ∧
     parse_author_bio (siteOf notFoundNet) "author/A" =
       match (bioPage "Alice" "bio A").authorTitle,
             (bioPage "Alice" "bio A").authorDescription with
       | some n, some b => .ok { name := strip n, bio := strip b }
       | _, _ => .error .malformedPage) :=
  ⟨⟨by decide,
    (network_error_transport_only emptyNet "author/A" 3 listPage1 [] [] []).1 (by decide)⟩,
   ⟨by decide,
    (network_error_transport_only emptyNet "author/A" 3 listPage1 [] [] []).2.1 (by decide)⟩,
   ⟨by decide, by decide,
    (network_error_transport_only emptyNet "author/A" 2 listPage1 [] [] []).2.2.1
      "page/2/" (by decide) (by decide)⟩,
   ⟨by decide,
    (network_error_transport_only notFoundNet "author/A" 3 listPage1 [] [] []).2.2.2
      { status := 404, body := bioPage "Alice" "bio A" } (by decide)⟩⟩

/-- C4: a quote fragment missing its text or author-name element, a
quote block missing its hyperlink, and a fetched author page missing its
title or description all fail with a MalformedPageError; and a page walk
that succeeds yields one quote per block, so no record is ever
skipped. -/
theorem malformed_page_aborts (site : Site) (qb : QuoteBlock) (rest : List QuoteBlock)
    (reg : Registry) (url : String) (ap : Page) :
    ((qb.textElem = none ∨ qb.authorElem = none) →
       parse_single_quote qb = .error .malformedPage) ∧
    (qb.linkHref = none → walkBlocks site (qb :: rest) reg = .error .malformedPage) ∧
    (site (resolve BASE_URL url) = some ap →
       (ap.authorTitle = none ∨ ap.authorDescription = none) →
       parse_author_bio site url = .error .malformedPage) ∧
    (∀ (bs : List QuoteBlock) (qs : List Quote) (reg' : Registry)
       (log : List (String × String)),
       walkBlocks site bs reg = .ok (qs, reg', log) → qs.length = bs.length) := by
  refine ⟨?_, ?_, ?_, ?_⟩
  · intro h
    unfold parse_single_quote
    rcases ht : qb.textElem with _ | t <;> rcases ha : qb.authorElem with _ | a
    · rfl
    · rfl
    · rfl
    · rcases h with h | h <;> simp_all
  · intro h
    simp only [walkBlocks]
    cases hp : parse_single_quote qb with
    | error e =>
      dsimp only
      rw [parse_single_quote_error hp]
    | ok q =>
      dsimp only
      rw [h]
  · intro hs hmiss
    unfold parse_author_bio
    rw [hs]
    dsimp only
    rcases hn : ap.authorTitle with _ | n <;> rcases hd : ap.authorDescription with _ | d
    · rfl
    · rfl
    · rfl
    · rcases hmiss with hmiss | hmiss <;> simp_all
  · intro bs qs reg' log hw
    exact (walkBlocks_spec site bs reg qs reg' log hw).2.2.1

/-- C4 witness: a block without text, a block without a link, and a bio
page without a description each produce a MalformedPageError; a
successful one-block walk yields exactly one quote. -/
theorem malformed_page_aborts_witness :
    parse_single_quote badQuoteBlock = .error .malformedPage ∧
    walkBlocks badAuthorSite [noLinkBlock] [] = .error .malformedPage ∧
    parse_author_bio badAuthorSite "author/X" = .error .malformedPage ∧
    ([⟨"q1", "A", ["t1"]⟩] : List Quote).length = [qbA].length :=
  ⟨(malformed_page_aborts badAuthorSite badQuoteBlock [] [] "author/X" badAuthorPage).1
     (by decide),
   (malformed_page_aborts badAuthorSite noLinkBlock [] [] "author/X" badAuthorPage).2.1
     (by decide),
   (malformed_page_aborts badAuthorSite badQuoteBlock [] [] "author/X" badAuthorPage).2.2.1
     (by decide) (by decide),
   (malformed_page_aborts demoSite qbA [] [] "author/X" badAuthorPage).2.2.2
     [qbA] [⟨"q1", "A", ["t1"]⟩]
     [("A", ⟨"Alice", "bio A"⟩)] [("A", resolve BASE_URL "author/A")] (by decide)⟩

/-- C5: every fetched URL beyond the base page is the extracted relative
link combined with the base URL exactly as the code combines them
(string concatenation).  First conjunct: the author-bio fetch depends on
the network only at `resolve BASE_URL author_url`.  Second: every URL in
the bio-fetch log of a page walk is `resolve BASE_URL` of the hyperlink
extracted from one of the page's quote blocks.  Third: the page the loop
processes after one with next link `href` is the one the network serves
at `resolve BASE_URL href`. -/
theorem fetch_resolves_links (site site2 : Site) (url : String) (p p2 : Page)
    (fuel : Nat) (acc : List Quote) (reg : Registry) (log : List (String × String)) :
    (site (resolve BASE_URL url) = site2 (resolve BASE_URL url) →
       parse_author_bio site url = parse_author_bio site2 url) ∧
    (∀ (bs : List QuoteBlock) (qs : List Quote) (reg' : Registry)
       (lg : List (String × String)),
       walkBlocks site bs reg = .ok (qs, reg', lg) →
       ∀ e ∈ lg, ∃ qb, qb ∈ bs ∧ ∃ hh, qb.linkHref = some hh ∧
         e.2 = resolve BASE_URL hh) ∧
    (∀ href, p.nextHref = some href → site (resolve BASE_URL href) = some p2 →
       crawlLoop site (fuel + 1) p acc reg log =
         match get_single_page_quotes site p2 reg with
         | .error e => some (.error e)
         | .ok (qs2, a2, log2) =>
           crawlLoop site fuel p2 (acc ++ qs2) a2 (log ++ log2)) := by
  refine ⟨?_, ?_, ?_⟩
  · intro h
    unfold parse_author_bio
    rw [h]
  · exact fun bs qs reg2 lg hw => walkBlocks_log_src site bs reg qs reg2 lg hw
  · intro href hn hs
    rw [crawlLoop, hn]
    dsimp only
    rw [hs]

/-- C5 witness: a site agreeing with the demo site only at A's resolved
bio URL yields the same parse; the demo walk's only log entry carries
the resolved URL of the block's link; the loop step after page 1
processes the page served at the resolved next link. -/
theorem fetch_resolves_links_witness :
    (authorOnlySite (resolve BASE_URL "author/A") =
       demoSite (resolve BASE_URL "author/A") ∧
     parse_author_bio authorOnlySite "author/A" = parse_author_bio demoSite "author/A") ∧
    (∃ qb, qb ∈ [qbA] ∧ ∃ hh, qb.linkHref = some hh ∧
       ("A", resolve BASE_URL "author/A").2 = resolve BASE_URL hh) ∧
    (crawlLoop demoSite (1 + 1) listPage1 [] [] [] =
       match get_single_page_quotes demoSite listPage2 [] with
       | .error e => some (.error e)
       | .ok (qs2, a2, log2) => crawlLoop demoSite 1 listPage2 ([] ++ qs2) a2 ([] ++ log2)) :=
  ⟨⟨by decide,
    (fetch_resolves_links authorOnlySite demoSite "author/A" listPage1 listPage2
       1 [] [] []).1 (by decide)⟩,
   (fetch_resolves_links authorOnlySite demoSite "author/A" listPage1 listPage2
       1 [] [] []).2.1 [qbA] [⟨"q1", "A", ["t1"]⟩]
     [("A", ⟨"Alice", "bio A"⟩)] [("A", resolve BASE_URL "author/A")] (by decide)
     ("A", resolve BASE_URL "author/A") (by decide),
   (fetch_resolves_links demoSite demoSite "author/A" listPage1 listPage2
       1 [] [] []).2.2 "page/2/" (by decide) (by decide)⟩

/-- C6: a quote block with text and author elements present extracts
text and author verbatim and its tags as the whitespace-stripped tag
strings, one per tag element, in document order. -/
theorem quote_extraction_exact (qb : QuoteBlock) (t a : String)
    (h1 : qb.textElem = some t) (h2 : qb.authorElem = some a) :
    parse_single_quote qb =
      .ok { text := t, author := a, tags := qb.tagElems.map strip } ∧
    (qb.tagElems.map strip).length = qb.tagElems.length :=
  ⟨parse_single_quote_ok h1 h2, by simp⟩

/-- C6 witness: the demo block with one tag element extracts one
stripped tag. -/
theorem quote_extraction_exact_witness :
    (qbA.textElem = some "q1" ∧ qbA.authorElem = some "A") ∧
    (parse_single_quote qbA =
       .ok { text := "q1", author := "A", tags := qbA.tagElems.map strip } ∧
     (qbA.tagElems.map strip).length = qbA.tagElems.length) :=
  ⟨⟨by decide, by decide⟩, quote_extraction_exact qbA "q1" "A" (by decide) (by decide)⟩

/-- C7: writing the quotes file replaces whatever the destination held
(the prior filesystem contents are arbitrary) with exactly the header
row text, author, tags followed by one row per quote in sequence order,
the tags cell holding the Python list literal of the tags; writing the
authors file likewise produces the header name, bio and one row per
registry entry. -/
theorem serializer_rows (qs : List Quote) (reg : Registry) (pq pa : String) (w : World)
    (hq : w.writable pq = true) (ha : w.writable pa = true) :
    (∃ w1, save_quotes_to_csv qs pq w = .ok w1 ∧
       w1.fs pq = some (["text", "author", "tags"] ::
         qs.map (fun q => [q.text, q.author, pyListRepr q.tags]))) ∧
    (∃ w2, save_authors_to_csv reg pa w = .ok w2 ∧
       w2.fs pa = some (["name", "bio"] :: reg.map (fun p => [p.2.name, p.2.bio]))) := by
  constructor
  · refine ⟨{ w with fs := fun p => if p == pq then some (quotesRows qs) else w.fs p },
      ?_, ?_⟩
    · simp [save_quotes_to_csv, writeFile, hq]
    · simp [quotesRows, quoteRow]
  · refine ⟨{ w with fs := fun p => if p == pa then some (authorsRows reg) else w.fs p },
      ?_, ?_⟩
    · simp [save_authors_to_csv, writeFile, ha]
    · simp [authorsRows, authorRow]

/-- C7 witness: serializing the demo crawl's records into a world whose
filesystem already holds nothing at the destinations. -/
theorem serializer_rows_witness :
    (demoWorld.writable OUTPUT_QUOTES_PATH = true ∧
     demoWorld.writable OUTPUT_AUTHORS_PATH = true) ∧
    ((∃ w1, save_quotes_to_csv demoQuotes OUTPUT_QUOTES_PATH demoWorld = .ok w1 ∧
        w1.fs OUTPUT_QUOTES_PATH = some (["text", "author", "tags"] ::
          demoQuotes.map (fun q => [q.text, q.author, pyListRepr q.tags]))) ∧
     (∃ w2, save_authors_to_csv demoRegistry OUTPUT_AUTHORS_PATH demoWorld = .ok w2 ∧
        w2.fs OUTPUT_AUTHORS_PATH = some (["name", "bio"] ::
          demoRegistry.map (fun p => [p.2.name, p.2.bio])))) :=
  ⟨⟨by decide, by decide⟩,
   serializer_rows demoQuotes demoRegistry OUTPUT_QUOTES_PATH OUTPUT_AUTHORS_PATH
     demoWorld (by decide) (by decide)⟩

/-- C8: no error is caught anywhere in the pipeline.  A crawl error
aborts the run with the world untouched, so both output files are as
they were (in particular unwritten); when the crawl succeeds, the
quotes file is written first, and a failure of the authors-file write
aborts the run with the quotes file already holding its full valid
contents and the authors path untouched. -/
theorem first_error_aborts (fuel : Nat) (qpath : String) (w : World) :
    (∀ e, get_all_quotes_and_authors w.site fuel = some (.error e) →
       App.main fuel qpath w = some (.error e, w)) ∧
    (∀ qs reg lg,
       get_all_quotes_and_authors w.site fuel = some (.ok (qs, reg, lg)) →
       w.writable qpath = true → w.writable OUTPUT_AUTHORS_PATH = false →
       ∃ w1, App.main fuel qpath w = some (.error .ioError, w1) ∧
         w1.fs qpath = some (quotesRows qs) ∧
         w1.fs OUTPUT_AUTHORS_PATH = w.fs OUTPUT_AUTHORS_PATH) := by
  constructor
  · intro e h
    unfold App.main
    rw [h]
  · intro qs reg lg h hq ha
    have hne : OUTPUT_AUTHORS_PATH ≠ qpath := by
      intro he
      rw [he, hq] at ha
      exact absurd ha (by simp)
    refine ⟨{ w with fs := fun p => if p == qpath then some (quotesRows qs) else w.fs p },
      ?_, ?_, ?_⟩
    · unfold App.main
      rw [h]
      dsimp only
      have h1 : save_quotes_to_csv qs qpath w =
          .ok { w with fs := fun p => if p == qpath then some (quotesRows qs) else w.fs p } := by
        simp [save_quotes_to_csv, writeFile, hq]
      rw [h1]
      dsimp only
      have h2 : save_authors_to_csv reg OUTPUT_AUTHORS_PATH
          { w with fs := fun p => if p == qpath then some (quotesRows qs) else w.fs p } =
          .error .ioError := by
        simp [save_authors_to_csv, writeFile, ha]
      rw [h2]
    · simp
    · simp [hne]

/-- C8 witness: over the failing network the run aborts leaving the
world untouched; over the demo site with the authors path unwritable,
the run aborts with the quotes file fully written and the authors path
still empty. -/
theorem first_error_aborts_witness :
    App.main 3 OUTPUT_QUOTES_PATH emptyWorld =
      some (.error .networkError, emptyWorld) ∧
    (∃ w1, App.main 5 OUTPUT_QUOTES_PATH demoWorldNoAuthors =
        some (.error .ioError, w1) ∧
      w1.fs OUTPUT_QUOTES_PATH = some (quotesRows demoQuotes) ∧
      w1.fs OUTPUT_AUTHORS_PATH = demoWorldNoAuthors.fs OUTPUT_AUTHORS_PATH) :=
  ⟨(first_error_aborts 3 OUTPUT_QUOTES_PATH emptyWorld).1 .networkError (by decide),
   (first_error_aborts 5 OUTPUT_QUOTES_PATH demoWorldNoAuthors).2
     demoQuotes demoRegistry demoLog (by decide) (by decide) (by decide)⟩

/-- C9: processing a fresh author keys the registry entry by the
listing page's displayed author name exactly as extracted (untrimmed),
while the stored Author's name  — the value later written to the
authors file's name column — is the bio page's title, trimmed; the two
can differ. -/
theorem registry_key_vs_output_name (site : Site) (qb : QuoteBlock)
    (t a href ttl desc : String) (ap : Page)
    (h1 : qb.textElem = some t) (h2 : qb.authorElem = some a)
    (h3 : qb.linkHref = some href) (h4 : site (resolve BASE_URL href) = some ap)
    (h5 : ap.authorTitle = some ttl) (h6 : ap.authorDescription = some desc) :
    walkBlocks site [qb] [] =
      .ok ([{ text := t, author := a, tags := qb.tagElems.map strip }],
           [(a, { name := strip ttl, bio := strip desc })],
           [(a, resolve BASE_URL href)]) ∧
    authorsRows [(a, { name := strip ttl, bio := strip desc })] =
      [["name", "bio"], [strip ttl, strip desc]] := by
  constructor
  · have hp := parse_single_quote_ok h1 h2
    have hb : parse_author_bio site href = .ok { name := strip ttl, bio := strip desc } := by
      unfold parse_author_bio
      rw [h4]
      dsimp only
      rw [h5, h6]
    simp only [walkBlocks, hp, h3]
    rw [if_neg (by simp [containsKey])]
    rw [hb]
    simp
  · simp [authorsRows, authorRow]

/-- C9 witness: a displayed name with trailing whitespace keys the
registry, while the serialized name is the stripped bio title, and the
two differ. -/
theorem registry_key_vs_output_name_witness :
    (walkBlocks oddNameSite [oddNameBlock] [] =
       .ok ([{ text := "qq", author := "B. Smith ",
               tags := oddNameBlock.tagElems.map strip }],
            [("B. Smith ", { name := strip " Bob Smith ", bio := strip "b" })],
            [("B. Smith ", resolve BASE_URL "author/B-Smith")]) ∧
     authorsRows [("B. Smith ", { name := strip " Bob Smith ", bio := strip "b" })] =
       [["name", "bio"], [strip " Bob Smith ", strip "b"]]) ∧
    "B. Smith " ≠ strip " Bob Smith " :=
  ⟨registry_key_vs_output_name oddNameSite oddNameBlock "qq" "B. Smith "
     "author/B-Smith" " Bob Smith " "b" (bioPage " Bob Smith " "b")
     (by decide) (by decide) (by decide) (by decide) (by decide) (by decide),
   by decide⟩
